import Mathlib

/-!
Verification of the SDR Trunk transcription pipeline
(src/transcriber/transcriber.py) against its natural-language
specification.

The Python source is shallowly embedded: pure helpers become Lean
functions over `List Char`/`String`, the filesystem becomes an explicit
set of (directory, filename) locations threaded through each operation,
times and durations become `ℚ` (the code compares `float` values; the
claims are about the comparisons, not rounding), and the one genuinely
concurrent function (`FileProcessor._transcribe_and_organize`) is
additionally embedded as an interleaving transition system whose atomic
steps are the CPython-GIL-atomic dictionary and lock operations.
-/

namespace Transcriber

/-! ## FileUtils.extract_talkgroup_id

Source:
```
match = re.search(r"TO_(\d+)[._]", filename)
return match.group(1) if match else "unknown"
```
-/

/-- Model of the regex character class `\d`.  Modelled as an ASCII
decimal digit; SDRTrunk writes ASCII filenames. -/
def isDig (c : Char) : Bool := c.isDigit

/-- Model of the regex character class `[._]`. -/
def isDelim (c : Char) : Bool := c = '.' || c = '_'

/-- Try to match `TO_(\d+)[._]` at the head of the character list and
return the captured digit group.  The greedy `\d+` takes the maximal
digit run; no shorter run can be followed by `[._]` because every
character of the run is a digit and neither `.` nor `_` is, so the
maximal run is the only candidate the regex engine can accept. -/
def matchTOAt : List Char → Option (List Char)
  | 'T' :: 'O' :: '_' :: rest =>
    let ds := rest.takeWhile isDig
    match rest.dropWhile isDig with
    | c :: _ => if ds.isEmpty then none else if isDelim c then some ds else none
    | [] => none
  | _ => none

/-- Leftmost search of `re.search`: try to match at every position,
earliest position wins. -/
def searchTO : List Char → Option (List Char)
  | [] => none
  | c :: rest =>
    match matchTOAt (c :: rest) with
    | some ds => some ds
    | none => searchTO rest

/-- `FileUtils.extract_talkgroup_id`: the captured digit group of the
leftmost match of `TO_(\d+)[._]`, or `"unknown"` when there is no
match.  A pure, total function. -/
def extract_talkgroup_id (filename : List Char) : List Char :=
  match searchTO filename with
  | some ds => ds
  | none => "unknown".toList

/-- Spec-side predicate (from the spec's words): `s` decomposes around a
token consisting of the literal marker `TO_`, a nonempty digit string
`ds`, and a delimiter `d` (`.` or `_`), with the digits captured. -/
def specToken (pre ds : List Char) (d : Char) (post s : List Char) : Prop :=
  s = pre ++ ('T' :: 'O' :: '_' :: ds) ++ d :: post ∧
    ds ≠ [] ∧ ds.all isDig = true ∧ isDelim d = true

/-- Spec-side predicate: the filename contains such a token. -/
def specHasToken (s : List Char) : Prop :=
  ∃ pre ds d post, specToken pre ds d post s

theorem takeWhile_digits_append (ds : List Char) (d : Char) (rest : List Char)
    (h : ds.all isDig = true) (hd : isDig d = false) :
    (ds ++ d :: rest).takeWhile isDig = ds ∧
      (ds ++ d :: rest).dropWhile isDig = d :: rest := by
  induction ds with
  | nil => simp [List.takeWhile, List.dropWhile, hd]
  | cons a t ih =>
    simp only [List.all_cons, Bool.and_eq_true] at h
    have := ih h.2
    simp [List.takeWhile, List.dropWhile, h.1, this.1, this.2]

theorem all_isDig_takeWhile (l : List Char) :
    (l.takeWhile isDig).all isDig = true := by
  induction l with
  | nil => simp [List.takeWhile]
  | cons a t ih =>
    by_cases h : isDig a = true
    · simp [List.takeWhile, h, ih]
    · simp [List.takeWhile, Bool.eq_false_iff.mpr h]

theorem isDelim_not_isDig (d : Char) (h : isDelim d = true) : isDig d = false := by
  rcases Bool.or_eq_true _ _ |>.mp h with h' | h' <;>
    · have : d = '.' ∨ d = '_' := by
        first
        | exact Or.inl (by exact decide_eq_true_eq.mp h')
        | exact Or.inr (by exact decide_eq_true_eq.mp h')
      rcases this with rfl | rfl <;> decide

theorem matchTOAt_sound (s ds : List Char) (h : matchTOAt s = some ds) :
    ∃ d post, s = 'T' :: 'O' :: '_' :: (ds ++ d :: post) ∧
      ds ≠ [] ∧ ds.all isDig = true ∧ isDelim d = true := by
  unfold matchTOAt at h
  split at h
  case _ rest =>
    simp only at h
    split at h
    case _ c l heq =>
      split at h
      · exact absurd h (by simp)
      · split at h
        · rename_i hne hdel
          have hds : rest.takeWhile isDig = ds := by
            simpa using h
          refine ⟨c, l, ?_, ?_, ?_, hdel⟩
          · have : rest = ds ++ c :: l := by
              rw [← hds, ← heq]
              exact (List.takeWhile_append_dropWhile (p := isDig) (l := rest)).symm
            rw [this]
          · intro hnil
            rw [hds] at hne
            simp [hnil] at hne
          · rw [← hds]; exact all_isDig_takeWhile rest
        · exact absurd h (by simp)
    case _ => exact absurd h (by simp)
  case _ => exact absurd h (by simp)

theorem matchTOAt_complete (ds : List Char) (d : Char) (post : List Char)
    (hne : ds ≠ []) (hdig : ds.all isDig = true) (hdel : isDelim d = true) :
    matchTOAt ('T' :: 'O' :: '_' :: (ds ++ d :: post)) = some ds := by
  have hd : isDig d = false := isDelim_not_isDig d hdel
  have htw := takeWhile_digits_append ds d post hdig hd
  unfold matchTOAt
  simp only [htw.1, htw.2]
  have : ds.isEmpty = false := by
    cases ds with
    | nil => exact absurd rfl hne
    | cons a t => rfl
  simp [this, hdel]

theorem searchTO_sound (s ds : List Char) (h : searchTO s = some ds) :
    ∃ pre d post, specToken pre ds d post s := by
  induction s with
  | nil => simp [searchTO] at h
  | cons c rest ih =>
    unfold searchTO at h
    cases hm : matchTOAt (c :: rest) with
    | some ds0 =>
      rw [hm] at h
      obtain rfl : ds0 = ds := by simpa using h
      obtain ⟨d, post, hs, hne, hdig, hdel⟩ := matchTOAt_sound _ _ hm
      exact ⟨[], d, post, by simpa using hs, hne, hdig, hdel⟩
    | none =>
      rw [hm] at h
      obtain ⟨pre, d, post, hs, hne, hdig, hdel⟩ := ih h
      exact ⟨c :: pre, d, post, by simp [specToken, hs], hne, hdig, hdel⟩

theorem searchTO_complete (pre : List Char) :
    ∀ (s ds : List Char) (d : Char) (post : List Char),
      specToken pre ds d post s → ∃ ds', searchTO s = some ds' := by
  induction pre with
  | nil =>
    intro s ds d post ⟨hs, hne, hdig, hdel⟩
    subst hs
    exact ⟨ds, by simp [searchTO, matchTOAt_complete ds d post hne hdig hdel]⟩
  | cons a pre' ih =>
    intro s ds d post ⟨hs, hne, hdig, hdel⟩
    subst hs
    simp only [List.cons_append]
    unfold searchTO
    cases hm : matchTOAt (a :: (pre' ++ ('T' :: 'O' :: '_' :: ds) ++ d :: post)) with
    | some ds0 => exact ⟨ds0, by simp⟩
    | none =>
      obtain ⟨ds', h'⟩ := ih (pre' ++ ('T' :: 'O' :: '_' :: ds) ++ d :: post) ds d post
        ⟨rfl, hne, hdig, hdel⟩
      exact ⟨ds', by simpa using h'⟩

/-- C7: the identifier extractor is a pure total function on filenames;
whenever the filename contains a token `TO_` + digits + delimiter
(`.` or `_`), it returns the digit string captured from such a token
(the leftmost match), and when no such token exists it returns the
literal `"unknown"`.  Totality and absence of side effects hold by
construction (`extract_talkgroup_id` is a Lean function). -/
theorem extract_talkgroup_id_spec (s : List Char) :
    (specHasToken s →
      ∃ pre ds d post, specToken pre ds d post s ∧ extract_talkgroup_id s = ds) ∧
    (¬ specHasToken s → extract_talkgroup_id s = "unknown".toList) := by
  constructor
  · rintro ⟨pre, ds, d, post, htok⟩
    obtain ⟨ds', hsearch⟩ := searchTO_complete pre s ds d post htok
    obtain ⟨pre', d', post', htok'⟩ := searchTO_sound s ds' hsearch
    exact ⟨pre', ds', d', post', htok', by simp [extract_talkgroup_id, hsearch]⟩
  · intro h
    cases hs : searchTO s with
    | some ds =>
      obtain ⟨pre, d, post, htok⟩ := searchTO_sound s ds hs
      exact absurd ⟨pre, ds, d, post, htok⟩ h
    | none => simp [extract_talkgroup_id, hs]

/-- Witness for C7 at the concrete filename `x_TO_123.mp3`. -/
theorem extract_talkgroup_id_spec_witness :
    specHasToken ("x_TO_123.mp3".toList) ∧
      ∃ pre ds d post, specToken pre ds d post ("x_TO_123.mp3".toList) ∧
        extract_talkgroup_id ("x_TO_123.mp3".toList) = ds := by
  have htok : specHasToken ("x_TO_123.mp3".toList) :=
    ⟨"x_".toList, "123".toList, '.', "mp3".toList, by decide, by decide, by decide, by decide⟩
  exact ⟨htok, (extract_talkgroup_id_spec _).1 htok⟩

/-! ## FileUtils.wait_for_file_stability

Source:
```
previous_size = -1
stable_time = 0
while stable_time < stability_duration:
    try:
        current_size = file_path.stat().st_size
        if current_size == previous_size:
            stable_time += 1
        else:
            stable_time = 0
            previous_size = current_size
        time.sleep(1)
    except FileNotFoundError: return False
    except Exception: return False
return True
```

The once-per-second `stat` calls are embedded as an oracle list of
samples: `some n` is a successful size read of `n` bytes, `none` is a
`FileNotFoundError` (path disappeared) or any other read error.
`probeRun prev count w samples` runs the loop with current previous
size `prev` (an `Int`, since the code seeds it with the impossible size
`-1`), current counter `count`, and window `w`.  The result is
`some true`/`some false` when the loop returns, and `none` when the
oracle was exhausted while the loop was still polling. -/

def probeRun (prev : Int) (count w : Nat) : List (Option Nat) → Option Bool
  | [] => if w ≤ count then some true else none
  | none :: _ => if w ≤ count then some true else some false
  | some cur :: rest =>
    if w ≤ count then some true
    else if (cur : Int) = prev then probeRun (cur : Int) (count + 1) w rest
    else probeRun (cur : Int) 0 w rest

/-- The loop guard: once the counter has reached the window the loop
exits with `True` whatever the remaining samples are. -/
theorem probeRun_done (prev : Int) (count w : Nat) (l : List (Option Nat))
    (h : w ≤ count) : probeRun prev count w l = some true := by
  cases l with
  | nil => simp [probeRun, h]
  | cons s rest => cases s <;> simp [probeRun, h]

/-- `FileUtils.wait_for_file_stability`, started as the source starts
it: previous size `-1`, counter `0`. -/
def wait_for_file_stability (w : Nat) (samples : List (Option Nat)) : Option Bool :=
  probeRun (-1) 0 w samples

/-- Counterexample to C8 as stated: with window `w = 2` the size
sequence `5, 5, 7, ⊥` is constant for `2 = w` consecutive samples
(the first two), yet the prober returns `false`, not `true`: the
counter counts unchanged comparisons, so `w` consecutive *samples* of
equal size only drive it to `w - 1`. -/
theorem wait_for_file_stability_run_of_w_not_enough :
    wait_for_file_stability 2 [some 5, some 5, some 7, none] = some false := by
  decide

theorem probeRun_replicate (w : Nat) (v : Nat) (rest : List (Option Nat)) :
    ∀ (j count : Nat), w ≤ count + j →
      probeRun (v : Int) count w (List.replicate j (some v) ++ rest) = some true := by
  intro j
  induction j with
  | zero =>
    intro count h
    exact probeRun_done _ _ _ _ (by omega)
  | succ k ih =>
    intro count h
    by_cases hc : w ≤ count
    · exact probeRun_done _ _ _ _ hc
    · rw [List.replicate_succ, List.cons_append]
      simp only [probeRun, hc, if_false, if_pos rfl]
      exact ih (count + 1) (by omega)

theorem probeRun_stable_run (w : Nat) (v : Nat) (rest : List (Option Nat)) :
    ∀ (pre : List (Option Nat)) (prev : Int) (count : Nat),
      (∀ s ∈ pre, s ≠ none) →
      probeRun prev count w (pre ++ List.replicate (w + 1) (some v) ++ rest) = some true := by
  intro pre
  induction pre with
  | nil =>
    intro prev count _
    by_cases hc : w ≤ count
    · exact probeRun_done _ _ _ _ hc
    · rw [List.nil_append, List.replicate_succ, List.cons_append]
      by_cases hp : (v : Int) = prev
      · simp only [probeRun, hc, if_false, if_pos hp]
        exact probeRun_replicate w v rest w (count + 1) (by omega)
      · simp only [probeRun, hc, if_false, if_neg hp]
        exact probeRun_replicate w v rest w 0 (by omega)
  | cons s pre' ih =>
    intro prev count hpre
    have hs : s ≠ none := hpre s (List.mem_cons_self s pre')
    obtain ⟨u, rfl⟩ : ∃ u, s = some u := by
      cases s with
      | none => exact absurd rfl hs
      | some u => exact ⟨u, rfl⟩
    have hpre' : ∀ t ∈ pre', t ≠ none := fun t ht => hpre t (List.mem_cons_of_mem _ ht)
    by_cases hc : w ≤ count
    · exact probeRun_done _ _ _ _ hc
    · rw [List.cons_append, List.cons_append]
      by_cases hp : (u : Int) = prev
      · simp only [probeRun, hc, if_false, if_pos hp]
        exact ih (u : Int) (count + 1) hpre'
      · simp only [probeRun, hc, if_false, if_neg hp]
        exact ih (u : Int) 0 hpre'

/-- C8 amended: the prober samples the size once per second, keeps a
counter of consecutive *unchanged comparisons* against the previous
sample, resets it on any change, and returns true exactly when the
counter reaches the window `w` — hence a size sequence that is constant
for `w + 1` consecutive samples (with no read error before then) makes
it return true; and if the path disappears (or any read error occurs)
while the window has not yet been reached, it returns false
immediately. -/
theorem wait_for_file_stability_amended :
    (∀ (w : Nat) (pre : List (Option Nat)) (v : Nat) (rest : List (Option Nat)),
      (∀ s ∈ pre, s ≠ none) →
      probeRun (-1) 0 w (pre ++ List.replicate (w + 1) (some v) ++ rest) = some true) ∧
    (∀ (w : Nat) (prev : Int) (count : Nat) (rest : List (Option Nat)),
      count < w → probeRun prev count w (none :: rest) = some false) := by
  constructor
  · intro w pre v rest hpre
    exact probeRun_stable_run w v rest pre (-1) 0 hpre
  · intro w prev count rest h
    simp [probeRun, Nat.not_le.mpr h]

/-- Witness for the amended C8 at concrete inputs: window `2`, one
clean leading sample of size `3`, then three consecutive samples of
size `5` give `true`; a vanished path with the counter still at `1 < 2`
gives `false`. -/
theorem wait_for_file_stability_amended_witness :
    probeRun (-1) 0 2 ([some 3] ++ List.replicate 3 (some 5) ++ []) = some true ∧
      probeRun 5 1 2 (none :: []) = some false :=
  ⟨wait_for_file_stability_amended.1 2 [some 3] 5 [] (by decide),
    wait_for_file_stability_amended.2 2 5 1 [] (by decide)⟩

/-! ## Filesystem model

The pipeline moves files between four places: the watch (inbox) root
`base_dir`, the too-short directory, the error directory, and the
per-talkgroup subdirectories of the watch root.  A file name is kept as
pathlib splits it: `stem` and `ext` (the `.suffix`), with
`name = stem ++ ext`.  The filesystem is the set of occupied
(directory, name) locations, represented as a list with set
semantics. -/

inductive Dir where
  | watch
  | tooShort
  | errors
  | sub (key : List Char)
deriving DecidableEq, Repr

/-- A file name: pathlib's `stem` and `suffix` (called `ext` here). -/
structure FName where
  stem : List Char
  ext : List Char
deriving DecidableEq, Repr

abbrev Loc := Dir × FName

def insertLoc (a : Loc) (fs : List Loc) : List Loc :=
  if a ∈ fs then fs else a :: fs

def eraseLoc (a : Loc) (fs : List Loc) : List Loc :=
  fs.filter (fun b => decide (b ≠ a))

/-- `src.rename(dst)`: the source location stops existing, the
destination exists (replacing any previous occupant). -/
def renameLoc (src dst : Loc) (fs : List Loc) : List Loc :=
  insertLoc dst (eraseLoc src fs)

theorem mem_insertLoc (x a : Loc) (fs : List Loc) :
    x ∈ insertLoc a fs ↔ x = a ∨ x ∈ fs := by
  unfold insertLoc
  split
  · rename_i h
    constructor
    · exact Or.inr
    · rintro (rfl | hx)
      · exact h
      · exact hx
  · simp [List.mem_cons]

theorem mem_eraseLoc (x a : Loc) (fs : List Loc) :
    x ∈ eraseLoc a fs ↔ x ∈ fs ∧ x ≠ a := by
  simp [eraseLoc, List.mem_filter]

theorem mem_renameLoc (x src dst : Loc) (fs : List Loc) :
    x ∈ renameLoc src dst fs ↔ x = dst ∨ (x ∈ fs ∧ x ≠ src) := by
  simp [renameLoc, mem_insertLoc, mem_eraseLoc]

/-! ## FileProcessor._check_duration_and_process (the Duration Gate)

Source:
```
try:
    duration = FileUtils.get_audio_duration(file_path)
    if duration < self.config.duration_threshold:
        self._move_to_too_short(file_path)
    else:
        self.transcription_pool.submit(self._transcribe_and_organize, file_path)
except FileFormatError:
    self._attempt_repair_and_retry(file_path)
```

The metadata reader (`mutagen` `MP3(...).info.length`) is an external
oracle: `Except.ok d` is a successful duration read, `Except.error ()`
is the `FileFormatError` that `get_audio_duration` raises on any
metadata-read failure.  Durations are `ℚ` (the code compares floats;
the claims are about the comparison). -/

inductive GateOutcome where
  | movedTooShort
  | submittedTranscription
  | repairTriggered
deriving DecidableEq, Repr

/-- `FileProcessor._move_to_too_short`: rename `base_dir/name` to
`too_short_dir/name`. -/
def move_to_too_short (n : FName) (fs : List Loc) : List Loc :=
  renameLoc (Dir.watch, n) (Dir.tooShort, n) fs

/-- `FileProcessor._check_duration_and_process`: returns the filesystem
after the gate's own side effects, together with where the file was
routed. -/
def check_duration_and_process (dres : Except Unit ℚ) (threshold : ℚ) (n : FName)
    (fs : List Loc) : List Loc × GateOutcome :=
  match dres with
  | .ok d =>
    if d < threshold then (move_to_too_short n fs, .movedTooShort)
    else (fs, .submittedTranscription)
  | .error _ => (fs, .repairTriggered)

/-- C4: the duration gate compares the read duration against the
threshold with strict less-than: a duration strictly below the
threshold relocates the file to `shortOutput` (leaving it absent from
`watch` and `errorOutput`), a duration at or above the threshold
submits the file to the transcription pool with the filesystem
untouched, and a metadata-read failure triggers the repair path instead
of returning a classification. -/
theorem check_duration_and_process_spec (threshold d : ℚ) (n : FName) (fs : List Loc)
    (hw : (Dir.watch, n) ∈ fs) (he : (Dir.errors, n) ∉ fs) :
    (d < threshold →
      (check_duration_and_process (.ok d) threshold n fs).2 = .movedTooShort ∧
      (Dir.tooShort, n) ∈ (check_duration_and_process (.ok d) threshold n fs).1 ∧
      (Dir.watch, n) ∉ (check_duration_and_process (.ok d) threshold n fs).1 ∧
      (Dir.errors, n) ∉ (check_duration_and_process (.ok d) threshold n fs).1) ∧
    (threshold ≤ d →
      check_duration_and_process (.ok d) threshold n fs = (fs, .submittedTranscription)) ∧
    (∀ e : Unit,
      check_duration_and_process (.error e) threshold n fs = (fs, .repairTriggered)) := by
  refine ⟨?_, ?_, ?_⟩
  · intro hlt
    have hout : check_duration_and_process (.ok d) threshold n fs =
        (move_to_too_short n fs, .movedTooShort) := by
      simp [check_duration_and_process, if_pos hlt]
    rw [hout]
    refine ⟨rfl, ?_, ?_, ?_⟩
    · simp [move_to_too_short, mem_renameLoc]
    · intro h
      rcases (mem_renameLoc _ _ _ _).mp h with h | ⟨-, h⟩ <;> simp at h
    · intro h
      rcases (mem_renameLoc _ _ _ _).mp h with h | ⟨h, -⟩
      · simp at h
      · exact he h
  · intro hge
    simp [check_duration_and_process, not_lt.mpr hge]
  · intro e
    rfl

/-- Witness for C4: file `rec.mp3` in the watch root, threshold `3/2`
seconds, duration `4/5` seconds. -/
theorem check_duration_and_process_spec_witness :
    ((4 : ℚ)/5 < 3/2) ∧
      ((check_duration_and_process (.ok (4/5)) (3/2) ⟨"rec".toList, ".mp3".toList⟩
          [(Dir.watch, ⟨"rec".toList, ".mp3".toList⟩)]).2 = .movedTooShort ∧
        (Dir.tooShort, ⟨"rec".toList, ".mp3".toList⟩) ∈
          (check_duration_and_process (.ok (4/5)) (3/2) ⟨"rec".toList, ".mp3".toList⟩
            [(Dir.watch, ⟨"rec".toList, ".mp3".toList⟩)]).1 ∧
        (Dir.watch, ⟨"rec".toList, ".mp3".toList⟩) ∉
          (check_duration_and_process (.ok (4/5)) (3/2) ⟨"rec".toList, ".mp3".toList⟩
            [(Dir.watch, ⟨"rec".toList, ".mp3".toList⟩)]).1 ∧
        (Dir.errors, ⟨"rec".toList, ".mp3".toList⟩) ∉
          (check_duration_and_process (.ok (4/5)) (3/2) ⟨"rec".toList, ".mp3".toList⟩
            [(Dir.watch, ⟨"rec".toList, ".mp3".toList⟩)]).1) :=
  ⟨by norm_num,
    (check_duration_and_process_spec (3/2) (4/5) ⟨"rec".toList, ".mp3".toList⟩
        [(Dir.watch, ⟨"rec".toList, ".mp3".toList⟩)]
        (by simp) (by simp)).1 (by norm_num)⟩

/-! ## FileProcessor.process_file (debounced dispatch)

Source:
```
current_time = time.time()
last_processed = self.file_times.get(file_path, 0)
if current_time - last_processed > self.config.debounce_seconds:
    self.file_times[file_path] = current_time
    self.duration_pool.submit(self._wait_and_process, file_path)
```
-/

structure DebounceState where
  fileTimes : List (FName × ℚ)
  probeQueue : List FName
deriving DecidableEq, Repr

/-- `self.file_times.get(file_path, 0)`. -/
def lookupTime (n : FName) (l : List (FName × ℚ)) : ℚ :=
  match l.find? (fun p => decide (p.1 = n)) with
  | some p => p.2
  | none => 0

/-- `self.file_times[file_path] = t`. -/
def setTime (n : FName) (t : ℚ) (l : List (FName × ℚ)) : List (FName × ℚ) :=
  (n, t) :: l.filter (fun p => decide (p.1 ≠ n))

/-- `FileProcessor.process_file` with the wall clock passed in as
`now`; a submission to the duration (probe) pool is appended to
`probeQueue`. -/
def process_file (debounce now : ℚ) (n : FName) (st : DebounceState) : DebounceState :=
  let last := lookupTime n st.fileTimes
  if debounce < now - last then
    { fileTimes := setTime n now st.fileTimes, probeQueue := st.probeQueue ++ [n] }
  else st

theorem lookupTime_setTime (n : FName) (t : ℚ) (l : List (FName × ℚ)) :
    lookupTime n (setTime n t l) = t := by
  simp [lookupTime, setTime, List.find?]

/-- C5: a dispatch attempt submits the path to the probe pool iff the
elapsed time since the path's last recorded dispatch timestamp strictly
exceeds the debounce interval; the recorded timestamp is updated only
when the attempt passes; consequently two dispatch attempts for the
same path where the second falls within the debounce interval of the
first yield exactly one submission. -/
theorem process_file_spec (debounce now t1 t2 : ℚ) (n : FName) (st : DebounceState) :
    (¬ debounce < now - lookupTime n st.fileTimes →
      process_file debounce now n st = st) ∧
    (debounce < now - lookupTime n st.fileTimes →
      process_file debounce now n st =
        { fileTimes := setTime n now st.fileTimes, probeQueue := st.probeQueue ++ [n] }) ∧
    (debounce < t1 - lookupTime n st.fileTimes → t2 - t1 ≤ debounce →
      process_file debounce t2 n (process_file debounce t1 n st) =
          process_file debounce t1 n st ∧
        (process_file debounce t2 n (process_file debounce t1 n st)).probeQueue =
          st.probeQueue ++ [n]) := by
  refine ⟨?_, ?_, ?_⟩
  · intro h
    simp [process_file, h]
  · intro h
    simp [process_file, h]
  · intro h1 h2
    have hfst : process_file debounce t1 n st =
        { fileTimes := setTime n t1 st.fileTimes, probeQueue := st.probeQueue ++ [n] } := by
      simp [process_file, h1]
    have hno : ¬ debounce < t2 - lookupTime n (setTime n t1 st.fileTimes) := by
      rw [lookupTime_setTime]; exact not_lt.mpr (by linarith)
    have hsnd : process_file debounce t2 n (process_file debounce t1 n st) =
        process_file debounce t1 n st := by
      rw [hfst]
      simp [process_file, hno]
    refine ⟨hsnd, ?_⟩
    rw [hsnd, hfst]

/-- Witness for C5: debounce `1` second, attempts at `t = 2` and
`t = 5/2` on a fresh path (recorded timestamp defaults to `0`). -/
theorem process_file_spec_witness :
    ((1 : ℚ) < 2 - lookupTime ⟨"rec".toList, ".mp3".toList⟩ []) ∧
      ((5 : ℚ)/2 - 2 ≤ 1) ∧
      (process_file 1 (5/2) ⟨"rec".toList, ".mp3".toList⟩
          (process_file 1 2 ⟨"rec".toList, ".mp3".toList⟩ ⟨[], []⟩) =
        process_file 1 2 ⟨"rec".toList, ".mp3".toList⟩ ⟨[], []⟩ ∧
      (process_file 1 (5/2) ⟨"rec".toList, ".mp3".toList⟩
          (process_file 1 2 ⟨"rec".toList, ".mp3".toList⟩ ⟨[], []⟩)).probeQueue =
        [] ++ [⟨"rec".toList, ".mp3".toList⟩]) := by
  have h1 : (1 : ℚ) < 2 - lookupTime ⟨"rec".toList, ".mp3".toList⟩ [] := by
    norm_num [lookupTime]
  have h2 : (5 : ℚ)/2 - 2 ≤ 1 := by norm_num
  exact ⟨h1, h2,
    (process_file_spec 1 (5/2) 2 (5/2) ⟨"rec".toList, ".mp3".toList⟩ ⟨[], []⟩).2.2 h1 h2⟩

/-! ## FileProcessor._attempt_repair_and_retry (the Repair Path)

Source:
```
temp_path = self.error_dir / f"{file_path.stem}_temp{file_path.suffix}"
if FileUtils.reencode_file(file_path, temp_path):
    try:
        duration = FileUtils.get_audio_duration(temp_path)
        if duration < self.config.duration_threshold:
            final_path = self.too_short_dir / file_path.name
            file_path.unlink(missing_ok=True)
            temp_path.rename(final_path)
        else:
            file_path.unlink(missing_ok=True)
            temp_path.rename(file_path)
            self.transcription_pool.submit(self._transcribe_and_organize, file_path)
    except Exception:
        temp_path.unlink(missing_ok=True)
        self._move_to_error(file_path, ...)
else:
    self._move_to_error(file_path, ...)
```

`reencode_file` runs ffmpeg and returns `False` on a non-zero exit
status (a partial output file may nevertheless have been produced) or
on a missing output file, `True` otherwise.  The oracle
`ReencodeOutcome` records the exit status and whether an output
artifact appeared on disk; `d2` is the metadata re-read of the temp
file (`.error ()` covering the `except` branch). -/

structure ReencodeOutcome where
  exitOk : Bool
  produced : Bool
deriving DecidableEq, Repr

structure RepairState where
  fs : List Loc
  transcriptionQueue : List FName
deriving DecidableEq, Repr

/-- `f"{file_path.stem}_temp{file_path.suffix}"`. -/
def tempName (n : FName) : FName := ⟨n.stem ++ "_temp".toList, n.ext⟩

/-- `FileProcessor._move_to_error`: rename `base_dir/name` to
`error_dir/name` when the file exists, otherwise do nothing. -/
def move_to_error (n : FName) (fs : List Loc) : List Loc :=
  if (Dir.watch, n) ∈ fs then renameLoc (Dir.watch, n) (Dir.errors, n) fs else fs

/-- `FileProcessor._attempt_repair_and_retry`.  The renames/unlinks of
the success branch are modelled as always succeeding; the `except`
branch is entered exactly when the metadata re-read fails. -/
def attempt_repair_and_retry (reenc : ReencodeOutcome) (d2 : Except Unit ℚ)
    (threshold : ℚ) (n : FName) (st : RepairState) : RepairState :=
  let temp : Loc := (Dir.errors, tempName n)
  let fs1 := if reenc.produced then insertLoc temp st.fs else st.fs
  if reenc.exitOk && reenc.produced then
    match d2 with
    | .ok d =>
      if d < threshold then
        { st with fs := renameLoc temp (Dir.tooShort, n) (eraseLoc (Dir.watch, n) fs1) }
      else
        { fs := renameLoc temp (Dir.watch, n) (eraseLoc (Dir.watch, n) fs1),
          transcriptionQueue := st.transcriptionQueue ++ [n] }
    | .error _ =>
      { st with fs := move_to_error n (eraseLoc temp fs1) }
  else
    { st with fs := move_to_error n fs1 }

/-- C2 fails on the code: when the re-encoder exits non-zero after
having produced a partial output file, `_attempt_repair_and_retry`
relocates the original to the error directory but never removes the
partial temp file — both the relocated original and the
`<stem>_temp<ext>` artifact are left on disk (the `else` branch of the
repair path, unlike its `except` branch, has no `temp_path.unlink`).
Here: file `rec.mp3` alone in the watch root, ffmpeg fails with a
partial `rec_temp.mp3`. -/
theorem attempt_repair_reencode_failure_leaves_temp :
    (Dir.errors, (⟨"rec".toList, ".mp3".toList⟩ : FName)) ∈
        (attempt_repair_and_retry ⟨false, true⟩ (.ok 2) 2 ⟨"rec".toList, ".mp3".toList⟩
          ⟨[(Dir.watch, ⟨"rec".toList, ".mp3".toList⟩)], []⟩).fs ∧
      (Dir.errors, tempName ⟨"rec".toList, ".mp3".toList⟩) ∈
        (attempt_repair_and_retry ⟨false, true⟩ (.ok 2) 2 ⟨"rec".toList, ".mp3".toList⟩
          ⟨[(Dir.watch, ⟨"rec".toList, ".mp3".toList⟩)], []⟩).fs := by
  constructor <;> decide

/-! ## FileProcessor._transcribe_and_organize (sequential embedding)

Source:
```
lock = self.file_locks.setdefault(file_path, threading.Lock())
with lock:
    if not file_path.exists():
        if file_path in self.file_locks:
            del self.file_locks[file_path]
        return
    try:
        transcription_text = self.transcription_service.transcribe(file_path)
        talkgroup_id = FileUtils.extract_talkgroup_id(file_path.name)
        target_dir = self.base_dir / talkgroup_id
        target_dir.mkdir(exist_ok=True)
        text_path = target_dir / f"{file_path.stem}.txt"
        text_path.write_text(transcription_text)
        target_path = target_dir / file_path.name
        file_path.rename(target_path)
    except TranscriptionError:
        self._move_to_error(file_path, ...)
    except Exception:
        self._move_to_error(file_path, ...)
    finally:
        if file_path in self.file_locks:
            del self.file_locks[file_path]
```

This embedding runs one invocation sequentially (the interleaved
embedding for the lock-contention claim is further below).  A trace of
events records the order of the externally visible actions. -/

inductive Ev where
  | engineCall (n : FName)
  | wroteText (key : List Char) (n : FName)
  | movedAudio (key : List Char) (n : FName)
  | movedToError (n : FName)
deriving DecidableEq, Repr

structure OrgState where
  fs : List Loc
  dirs : List (List Char)
  locks : List FName
  trace : List Ev
deriving DecidableEq, Repr

def insertKey (k : List Char) (l : List (List Char)) : List (List Char) :=
  if k ∈ l then l else k :: l

def insertName (n : FName) (l : List FName) : List FName :=
  if n ∈ l then l else n :: l

def eraseName (n : FName) (l : List FName) : List FName :=
  l.filter (fun m => decide (m ≠ n))

theorem not_mem_eraseName (n : FName) (l : List FName) : n ∉ eraseName n l := by
  simp [eraseName, List.mem_filter]

/-- `file_path.name = stem + suffix`. -/
def render (n : FName) : List Char := n.stem ++ n.ext

/-- `f"{file_path.stem}.txt"`. -/
def txtName (n : FName) : FName := ⟨n.stem, ".txt".toList⟩

/-- `_move_to_error` as invoked during `_transcribe_and_organize`, with
its trace event; the filesystem effect is that of `move_to_error`. -/
def moveToErrorEv (n : FName) (st : OrgState) : OrgState :=
  if (Dir.watch, n) ∈ st.fs then
    { st with fs := renameLoc (Dir.watch, n) (Dir.errors, n) st.fs,
              trace := st.trace ++ [Ev.movedToError n] }
  else st

/-- `FileProcessor._transcribe_and_organize`, one sequential
invocation.  `engine` is the transcription oracle: `.ok text` for a
successful `TranscriptionService.transcribe` call, `.error ()` for the
`TranscriptionError` it raises on any engine failure. -/
def transcribe_and_organize (engine : Except Unit (List Char)) (n : FName)
    (s0 : OrgState) : OrgState :=
  let s1 : OrgState := { s0 with locks := insertName n s0.locks }
  if (Dir.watch, n) ∈ s1.fs then
    let s2 : OrgState := { s1 with trace := s1.trace ++ [Ev.engineCall n] }
    let s3 : OrgState :=
      match engine with
      | .ok _text =>
        let key := extract_talkgroup_id (render n)
        let sa : OrgState := { s2 with dirs := insertKey key s2.dirs }
        let sb : OrgState := { sa with fs := insertLoc (Dir.sub key, txtName n) sa.fs,
                                       trace := sa.trace ++ [Ev.wroteText key n] }
        { sb with fs := renameLoc (Dir.watch, n) (Dir.sub key, n) sb.fs,
                  trace := sb.trace ++ [Ev.movedAudio key n] }
      | .error _ => moveToErrorEv n s2
    { s3 with locks := eraseName n s3.locks }
  else
    { s1 with locks := eraseName n s1.locks }

theorem mem_insertKey_self (k : List Char) (l : List (List Char)) :
    k ∈ insertKey k l := by
  unfold insertKey
  split
  · assumption
  · exact List.mem_cons_self k l

/-- When the file is present and the engine succeeds, the invocation
computes to this explicit end state. -/
theorem transcribe_and_organize_ok_eq (t : List Char) (n : FName) (s0 : OrgState)
    (hw : (Dir.watch, n) ∈ s0.fs) :
    transcribe_and_organize (.ok t) n s0 =
      { fs := renameLoc (Dir.watch, n) (Dir.sub (extract_talkgroup_id (render n)), n)
          (insertLoc (Dir.sub (extract_talkgroup_id (render n)), txtName n) s0.fs),
        dirs := insertKey (extract_talkgroup_id (render n)) s0.dirs,
        locks := eraseName n (insertName n s0.locks),
        trace := s0.trace ++ [Ev.engineCall n,
          Ev.wroteText (extract_talkgroup_id (render n)) n,
          Ev.movedAudio (extract_talkgroup_id (render n)) n] } := by
  have hcond : (Dir.watch, n) ∈
      ({ s0 with locks := insertName n s0.locks } : OrgState).fs := hw
  unfold transcribe_and_organize
  rw [if_pos hcond]
  simp

/-- When the file is present and the engine fails, the invocation
computes to this explicit end state. -/
theorem transcribe_and_organize_err_eq (e : Unit) (n : FName) (s0 : OrgState)
    (hw : (Dir.watch, n) ∈ s0.fs) :
    transcribe_and_organize (.error e) n s0 =
      { fs := renameLoc (Dir.watch, n) (Dir.errors, n) s0.fs,
        dirs := s0.dirs,
        locks := eraseName n (insertName n s0.locks),
        trace := s0.trace ++ [Ev.engineCall n, Ev.movedToError n] } := by
  have hcond : (Dir.watch, n) ∈
      ({ s0 with locks := insertName n s0.locks } : OrgState).fs := hw
  unfold transcribe_and_organize
  rw [if_pos hcond]
  simp only []
  have hmv : (Dir.watch, n) ∈
      ({ { s0 with locks := insertName n s0.locks } with
          trace := ({ s0 with locks := insertName n s0.locks } : OrgState).trace ++
            [Ev.engineCall n] } : OrgState).fs := hw
  simp [moveToErrorEv, if_pos hmv]

/-- C3: for a file present in the watch root whose engine call
succeeds, the end state has the transcript at
`watch/<key>/<stem>.txt`, the audio at `watch/<key>/<name>`, the file
gone from the watch root, the `<key>` subdirectory existing, and the
trace shows the engine call, then the text write, then the audio move
— in that order. -/
theorem transcribe_and_organize_success (t : List Char) (n : FName) (s0 : OrgState)
    (hw : (Dir.watch, n) ∈ s0.fs) :
    (Dir.sub (extract_talkgroup_id (render n)), txtName n) ∈
        (transcribe_and_organize (.ok t) n s0).fs ∧
      (Dir.sub (extract_talkgroup_id (render n)), n) ∈
        (transcribe_and_organize (.ok t) n s0).fs ∧
      (Dir.watch, n) ∉ (transcribe_and_organize (.ok t) n s0).fs ∧
      extract_talkgroup_id (render n) ∈ (transcribe_and_organize (.ok t) n s0).dirs ∧
      (transcribe_and_organize (.ok t) n s0).trace =
        s0.trace ++ [Ev.engineCall n, Ev.wroteText (extract_talkgroup_id (render n)) n,
          Ev.movedAudio (extract_talkgroup_id (render n)) n] := by
  rw [transcribe_and_organize_ok_eq t n s0 hw]
  refine ⟨?_, ?_, ?_, ?_, ?_⟩
  · simp [mem_renameLoc, mem_insertLoc, mem_eraseLoc]
  · simp [mem_renameLoc]
  · intro h
    rcases (mem_renameLoc _ _ _ _).mp h with h | ⟨-, h⟩
    · simp at h
    · exact h rfl
  · exact mem_insertKey_self _ _
  · rfl

/-- Witness for C3: `a_TO_7_x.mp3` alone in the watch root, engine
returns `hello`; the talkgroup key is `7`. -/
theorem transcribe_and_organize_success_witness :
    ((Dir.watch, (⟨"a_TO_7_x".toList, ".mp3".toList⟩ : FName)) ∈
        [(Dir.watch, (⟨"a_TO_7_x".toList, ".mp3".toList⟩ : FName))]) ∧
      ((Dir.sub (extract_talkgroup_id (render ⟨"a_TO_7_x".toList, ".mp3".toList⟩)),
          txtName ⟨"a_TO_7_x".toList, ".mp3".toList⟩) ∈
        (transcribe_and_organize (.ok "hello".toList) ⟨"a_TO_7_x".toList, ".mp3".toList⟩
          ⟨[(Dir.watch, ⟨"a_TO_7_x".toList, ".mp3".toList⟩)], [], [], []⟩).fs ∧
      (Dir.sub (extract_talkgroup_id (render ⟨"a_TO_7_x".toList, ".mp3".toList⟩)),
          (⟨"a_TO_7_x".toList, ".mp3".toList⟩ : FName)) ∈
        (transcribe_and_organize (.ok "hello".toList) ⟨"a_TO_7_x".toList, ".mp3".toList⟩
          ⟨[(Dir.watch, ⟨"a_TO_7_x".toList, ".mp3".toList⟩)], [], [], []⟩).fs ∧
      (Dir.watch, (⟨"a_TO_7_x".toList, ".mp3".toList⟩ : FName)) ∉
        (transcribe_and_organize (.ok "hello".toList) ⟨"a_TO_7_x".toList, ".mp3".toList⟩
          ⟨[(Dir.watch, ⟨"a_TO_7_x".toList, ".mp3".toList⟩)], [], [], []⟩).fs ∧
      extract_talkgroup_id (render ⟨"a_TO_7_x".toList, ".mp3".toList⟩) ∈
        (transcribe_and_organize (.ok "hello".toList) ⟨"a_TO_7_x".toList, ".mp3".toList⟩
          ⟨[(Dir.watch, ⟨"a_TO_7_x".toList, ".mp3".toList⟩)], [], [], []⟩).dirs ∧
      (transcribe_and_organize (.ok "hello".toList) ⟨"a_TO_7_x".toList, ".mp3".toList⟩
          ⟨[(Dir.watch, ⟨"a_TO_7_x".toList, ".mp3".toList⟩)], [], [], []⟩).trace =
        [] ++ [Ev.engineCall ⟨"a_TO_7_x".toList, ".mp3".toList⟩,
          Ev.wroteText (extract_talkgroup_id (render ⟨"a_TO_7_x".toList, ".mp3".toList⟩))
            ⟨"a_TO_7_x".toList, ".mp3".toList⟩,
          Ev.movedAudio (extract_talkgroup_id (render ⟨"a_TO_7_x".toList, ".mp3".toList⟩))
            ⟨"a_TO_7_x".toList, ".mp3".toList⟩]) :=
  ⟨by decide,
    transcribe_and_organize_success "hello".toList ⟨"a_TO_7_x".toList, ".mp3".toList⟩
      ⟨[(Dir.watch, ⟨"a_TO_7_x".toList, ".mp3".toList⟩)], [], [], []⟩ (by decide)⟩

/-- C9: for a file present in the watch root whose engine call fails,
the orchestrator relocates the file to the error directory, calls the
engine exactly once (the appended trace is one engine call followed by
the relocation — no retry), and returns normally (the embedding is a
total function: every engine outcome is handled). -/
theorem transcribe_and_organize_engine_failure (e : Unit) (n : FName) (s0 : OrgState)
    (hw : (Dir.watch, n) ∈ s0.fs) :
    (Dir.errors, n) ∈ (transcribe_and_organize (.error e) n s0).fs ∧
      (Dir.watch, n) ∉ (transcribe_and_organize (.error e) n s0).fs ∧
      (transcribe_and_organize (.error e) n s0).trace =
        s0.trace ++ [Ev.engineCall n, Ev.movedToError n] := by
  rw [transcribe_and_organize_err_eq e n s0 hw]
  refine ⟨?_, ?_, ?_⟩
  · simp [mem_renameLoc]
  · intro h
    rcases (mem_renameLoc _ _ _ _).mp h with h | ⟨-, h⟩
    · simp at h
    · exact h rfl
  · rfl

/-- Witness for C9: `rec.mp3` alone in the watch root, engine fails. -/
theorem transcribe_and_organize_engine_failure_witness :
    ((Dir.watch, (⟨"rec".toList, ".mp3".toList⟩ : FName)) ∈
        [(Dir.watch, (⟨"rec".toList, ".mp3".toList⟩ : FName))]) ∧
      ((Dir.errors, (⟨"rec".toList, ".mp3".toList⟩ : FName)) ∈
        (transcribe_and_organize (.error ()) ⟨"rec".toList, ".mp3".toList⟩
          ⟨[(Dir.watch, ⟨"rec".toList, ".mp3".toList⟩)], [], [], []⟩).fs ∧
      (Dir.watch, (⟨"rec".toList, ".mp3".toList⟩ : FName)) ∉
        (transcribe_and_organize (.error ()) ⟨"rec".toList, ".mp3".toList⟩
          ⟨[(Dir.watch, ⟨"rec".toList, ".mp3".toList⟩)], [], [], []⟩).fs ∧
      (transcribe_and_organize (.error ()) ⟨"rec".toList, ".mp3".toList⟩
          ⟨[(Dir.watch, ⟨"rec".toList, ".mp3".toList⟩)], [], [], []⟩).trace =
        [] ++ [Ev.engineCall ⟨"rec".toList, ".mp3".toList⟩,
          Ev.movedToError ⟨"rec".toList, ".mp3".toList⟩]) :=
  ⟨by decide,
    transcribe_and_organize_engine_failure () ⟨"rec".toList, ".mp3".toList⟩
      ⟨[(Dir.watch, ⟨"rec".toList, ".mp3".toList⟩)], [], [], []⟩ (by decide)⟩

/-- C10: whatever the engine outcome and initial state, the lock-table
entry for the path is gone when `_transcribe_and_organize` returns; and
when the file no longer exists on entry, the call returns without
relocating anything (filesystem, directories and trace unchanged). -/
theorem transcribe_and_organize_lock_released (engine : Except Unit (List Char))
    (n : FName) (s0 : OrgState) :
    n ∉ (transcribe_and_organize engine n s0).locks ∧
      ((Dir.watch, n) ∉ s0.fs →
        (transcribe_and_organize engine n s0).fs = s0.fs ∧
          (transcribe_and_organize engine n s0).dirs = s0.dirs ∧
          (transcribe_and_organize engine n s0).trace = s0.trace) := by
  constructor
  · unfold transcribe_and_organize
    by_cases hw : (Dir.watch, n) ∈ s0.fs
    · rw [if_pos hw]
      exact not_mem_eraseName _ _
    · rw [if_neg hw]
      exact not_mem_eraseName _ _
  · intro hab
    unfold transcribe_and_organize
    rw [if_neg hab]
    exact ⟨rfl, rfl, rfl⟩

/-- Witness for C10: the file is absent (empty filesystem), engine
would have succeeded; nothing is relocated and the lock entry is
gone. -/
theorem transcribe_and_organize_lock_released_witness :
    (Dir.watch, (⟨"rec".toList, ".mp3".toList⟩ : FName)) ∉ ([] : List Loc) ∧
      ((⟨"rec".toList, ".mp3".toList⟩ : FName) ∉
        (transcribe_and_organize (.ok "hello".toList) ⟨"rec".toList, ".mp3".toList⟩
          ⟨[], [], [⟨"rec".toList, ".mp3".toList⟩], []⟩).locks) ∧
      ((transcribe_and_organize (.ok "hello".toList) ⟨"rec".toList, ".mp3".toList⟩
          ⟨[], [], [⟨"rec".toList, ".mp3".toList⟩], []⟩).fs = [] ∧
        (transcribe_and_organize (.ok "hello".toList) ⟨"rec".toList, ".mp3".toList⟩
          ⟨[], [], [⟨"rec".toList, ".mp3".toList⟩], []⟩).dirs = [] ∧
        (transcribe_and_organize (.ok "hello".toList) ⟨"rec".toList, ".mp3".toList⟩
          ⟨[], [], [⟨"rec".toList, ".mp3".toList⟩], []⟩).trace = []) :=
  ⟨by decide,
    (transcribe_and_organize_lock_released (.ok "hello".toList)
        ⟨"rec".toList, ".mp3".toList⟩ ⟨[], [], [⟨"rec".toList, ".mp3".toList⟩], []⟩).1,
    (transcribe_and_organize_lock_released (.ok "hello".toList)
        ⟨"rec".toList, ".mp3".toList⟩ ⟨[], [], [⟨"rec".toList, ".mp3".toList⟩], []⟩).2
      (by decide)⟩

/-! ## TranscriptionService._format_segments / transcribe (text pipeline)

Source (`_format_segments`):
```
formatted_segments = [{"text": segment.text} for segment in segments]
combined_text = " ".join(seg["text"].strip() for seg in formatted_segments)
return json.dumps({"text": combined_text}).replace('": "', '":"')
```
and the tail of `transcribe`:
```
formatted_result = self._format_segments(segments)
return json.loads(formatted_result)['text']
```

The engine's segments are the oracle: a list of segment texts.  The
embedding reproduces the whole round trip — `str.strip`, `" ".join`,
`json.dumps` (default `ensure_ascii=True`) of the single-member object,
the global `str.replace`, and `json.loads` of the resulting document —
because the `.replace('": "', '":"')` runs over the *whole* dumped
document, content included. -/

/-- Python `str.strip()` default whitespace (the ASCII part; Python
also strips Unicode space characters, which do not occur in the
claims). -/
def pyIsSpace (c : Char) : Bool :=
  c = ' ' || c = '\t' || c = '\n' || c = '\r' || c = '\x0b' || c = '\x0c'

/-- `str.strip()`. -/
def pyStrip (s : List Char) : List Char :=
  ((s.dropWhile pyIsSpace).reverse.dropWhile pyIsSpace).reverse

/-- `" ".join(parts)`. -/
def joinSpace : List (List Char) → List Char
  | [] => []
  | [s] => s
  | s :: rest => s ++ ' ' :: joinSpace rest

/-- `combined_text`: each segment text stripped, joined with single
spaces. -/
def combined_text (segs : List (List Char)) : List Char :=
  joinSpace (segs.map pyStrip)

def hexDigitChar (k : Nat) : Char :=
  if k < 10 then Char.ofNat ('0'.toNat + k) else Char.ofNat ('a'.toNat + k - 10)

def hex4 (k : Nat) : List Char :=
  [hexDigitChar (k / 4096 % 16), hexDigitChar (k / 256 % 16),
    hexDigitChar (k / 16 % 16), hexDigitChar (k % 16)]

/-- `json.dumps` escaping of one character (default
`ensure_ascii=True`): `"` and `\` get backslash escapes, the control
shorthands `\n \r \t \b \f` are used, remaining characters outside
U+0020..U+007E become `\uXXXX` (a surrogate pair above U+FFFF). -/
def jsonEscapeChar (c : Char) : List Char :=
  if c = '"' then ['\\', '"']
  else if c = '\\' then ['\\', '\\']
  else if c = '\n' then ['\\', 'n']
  else if c = '\r' then ['\\', 'r']
  else if c = '\t' then ['\\', 't']
  else if c = '\x08' then ['\\', 'b']
  else if c = '\x0c' then ['\\', 'f']
  else if c.toNat < 0x20 then '\\' :: 'u' :: hex4 c.toNat
  else if c.toNat < 0x7f then [c]
  else if c.toNat < 0x10000 then '\\' :: 'u' :: hex4 c.toNat
  else
    ('\\' :: 'u' :: hex4 (0xd800 + (c.toNat - 0x10000) / 0x400)) ++
      ('\\' :: 'u' :: hex4 (0xdc00 + (c.toNat - 0x10000) % 0x400))

/-- `json.dumps({"text": s})` with the default separators:
`{"text": "<escaped s>"}`. -/
def dumpsTextObj (s : List Char) : List Char :=
  '\x7b' :: '"' :: 't' :: 'e' :: 'x' :: 't' :: '"' :: ':' :: ' ' :: '"' ::
    ((s.map jsonEscapeChar).flatten ++ ['"', '\x7d'])

/-- Python `str.replace('": "', '":"')`: scan left to right, replacing
non-overlapping occurrences of the four characters `"`, `:`, space,
`"` by `"`, `:`, `"`. -/
def replaceQCS : List Char → List Char
  | '"' :: ':' :: ' ' :: '"' :: rest => '"' :: ':' :: '"' :: replaceQCS rest
  | c :: rest => c :: replaceQCS rest
  | [] => []

def jsonIsWs (c : Char) : Bool := c = ' ' || c = '\t' || c = '\n' || c = '\r'

def hexVal (c : Char) : Option Nat :=
  if '0' ≤ c ∧ c ≤ '9' then some (c.toNat - '0'.toNat)
  else if 'a' ≤ c ∧ c ≤ 'f' then some (c.toNat - 'a'.toNat + 10)
  else if 'A' ≤ c ∧ c ≤ 'F' then some (c.toNat - 'A'.toNat + 10)
  else none

/-- Decode a `\uXXXX` escape at the head (the `\u` and four hex digits
already split off), combining a high surrogate with a following
`\uXXXX` low surrogate into one code point as `json.loads` does;
returns the decoded character and the remaining input.  A lone
surrogate (which Python keeps as a lone surrogate `str` element,
impossible as a Lean `Char` and never produced by `dumps`) degrades
through `Char.ofNat` to U+0000. -/
def decodeUEscape (h1 h2 h3 h4 : Char) (rest : List Char) : Option (Char × List Char) :=
  match hexVal h1, hexVal h2, hexVal h3, hexVal h4 with
  | some a, some b, some c, some d =>
    let code := a * 4096 + b * 256 + c * 16 + d
    if 0xd800 ≤ code ∧ code < 0xdc00 then
      match rest with
      | '\\' :: 'u' :: g1 :: g2 :: g3 :: g4 :: rest2 =>
        (match hexVal g1, hexVal g2, hexVal g3, hexVal g4 with
        | some e, some f, some g, some h =>
          let low := e * 4096 + f * 256 + g * 16 + h
          if 0xdc00 ≤ low ∧ low < 0xe000 then
            some (Char.ofNat (0x10000 + (code - 0xd800) * 0x400 + (low - 0xdc00)), rest2)
          else some (Char.ofNat code, rest)
        | _, _, _, _ => some (Char.ofNat code, rest))
      | _ => some (Char.ofNat code, rest)
    else some (Char.ofNat code, rest)
  | _, _, _, _ => none

/-- `\X` shorthand escapes. -/
def decodeSimpleEscape (e : Char) : Option Char :=
  if e = '"' then some '"'
  else if e = '\\' then some '\\'
  else if e = '/' then some '/'
  else if e = 'b' then some '\x08'
  else if e = 'f' then some '\x0c'
  else if e = 'n' then some '\n'
  else if e = 'r' then some '\r'
  else if e = 't' then some '\t'
  else none

/-- JSON string-literal body decoder (opening quote already consumed):
returns the decoded content and the remaining input after the closing
quote.  Each step consumes at least one input character, so running it
with fuel `length + 1` is exact; the fuel only makes the recursion
structural. -/
def parseJsonStringBodyFuel : Nat → List Char → Option (List Char × List Char)
  | 0, _ => none
  | _ + 1, [] => none
  | _ + 1, '"' :: rest => some ([], rest)
  | fuel + 1, '\\' :: 'u' :: h1 :: h2 :: h3 :: h4 :: rest =>
    (match decodeUEscape h1 h2 h3 h4 rest with
    | some (c, rem) =>
      match parseJsonStringBodyFuel fuel rem with
      | some (cs, rem2) => some (c :: cs, rem2)
      | none => none
    | none => none)
  | fuel + 1, '\\' :: e :: rest =>
    (match decodeSimpleEscape e with
    | some c =>
      match parseJsonStringBodyFuel fuel rest with
      | some (cs, rem) => some (c :: cs, rem)
      | none => none
    | none => none)
  | fuel + 1, c :: rest =>
    match parseJsonStringBodyFuel fuel rest with
    | some (cs, rem) => some (c :: cs, rem)
    | none => none

def parseJsonStringBody (s : List Char) : Option (List Char × List Char) :=
  parseJsonStringBodyFuel (s.length + 1) s

def stripJsonWs (s : List Char) : List Char := s.dropWhile jsonIsWs

/-- `json.loads(doc)['text']` for documents of the shape
`_format_segments` emits: a single-member object whose value is a
string.  `none` covers every parse failure and a missing `text` key
(in `transcribe` those surface as the wrapped `TranscriptionError`). -/
def loadsTextMember (s : List Char) : Option (List Char) :=
  match stripJsonWs s with
  | '\x7b' :: r =>
    (match stripJsonWs r with
    | '"' :: r2 =>
      (match parseJsonStringBody r2 with
      | some (key, r3) =>
        (match stripJsonWs r3 with
        | ':' :: r4 =>
          (match stripJsonWs r4 with
          | '"' :: r5 =>
            (match parseJsonStringBody r5 with
            | some (val, r6) =>
              (match stripJsonWs r6 with
              | '\x7d' :: r7 =>
                if stripJsonWs r7 = [] ∧ key = "text".toList then some val else none
              | _ => none)
            | none => none)
          | _ => none)
        | _ => none)
      | none => none)
    | _ => none)
  | _ => none

/-- `TranscriptionService._format_segments`. -/
def format_segments (segs : List (List Char)) : List Char :=
  replaceQCS (dumpsTextObj (combined_text segs))

/-- The text pipeline of `TranscriptionService.transcribe`:
`json.loads(self._format_segments(segments))['text']`. -/
def transcribe_text (segs : List (List Char)) : Option (List Char) :=
  loadsTextMember (format_segments segs)

/-- Sanity: on the spec's own scenario the pipeline behaves as claimed:
segments `"hello "` and `"world"` yield `"hello world"`. -/
theorem transcribe_text_hello_world :
    transcribe_text ["hello ".toList, "world".toList] = some "hello world".toList := by
  decide

/-- C6 fails on the code: for segments `a":` and `" "` the trimmed
texts joined with single spaces are `a": ` (with a trailing space,
because the second segment strips to the empty string), but
`transcribe` returns `a":` — the global
`.replace('": "', '":"')` also matches at the end of the dumped
document, where the content's escaped `\"` abuts the closing string
delimiter, and deletes the trailing space from the content. -/
theorem transcribe_text_drops_trailing_space :
    combined_text [['a', '"', ':'], [' ']] = ['a', '"', ':', ' '] ∧
      transcribe_text [['a', '"', ':'], [' ']] = some ['a', '"', ':'] ∧
      some (combined_text [['a', '"', ':'], [' ']]) ≠
        transcribe_text [['a', '"', ':'], [' ']] := by
  refine ⟨by decide, by decide, by decide⟩

/-! ## _transcribe_and_organize under concurrency: the per-file lock table

```
self.file_locks: Dict[Path, threading.Lock] = {}
...
lock = self.file_locks.setdefault(file_path, threading.Lock())
with lock:
    if not file_path.exists():
        if file_path in self.file_locks: del self.file_locks[file_path]
        return
    try: ...transcribe, write text, rename...
    except ...: self._move_to_error(file_path, ...)
    finally:
        if file_path in self.file_locks: del self.file_locks[file_path]
```

Interleaving embedding for one path (distinct paths use disjoint
dictionary keys and independent lock objects, so the per-path claim is
unaffected by other paths).  Each CPython-GIL-atomic operation of the
source is one atomic step: `dict.setdefault`, the blocking
`lock.acquire` of `with`, the `exists()` check, the guarded `del`, the
engine call, the relocation of the file away from the watch path (the
success and failure branches both do this, so they are collapsed into
one step), and `lock.release`.  Every thread executes one invocation
of `_transcribe_and_organize` for the same path.

Thread program counters:
* 0 = at `setdefault`;
* 1 = at `lock.acquire` (blocks while the lock object is held);
* 2 = at the `exists()` check;
* 3 = at the missing-branch guarded `del`;
* 4 = at the engine call;
* 5 = at the text write / rename (the file leaves the watch path);
* 6 = at the `finally` guarded `del`;
* 7 = at the `with`-exit `lock.release`;
* 8 = done.

A thread is inside the `with lock:` critical section at pcs 2..6. -/

structure Thr where
  pc : Nat
  lk : Option Nat
deriving DecidableEq, Repr

structure CState where
  /-- `self.file_locks` entry for the path: a lock object id, if present. -/
  table : Option Nat
  /-- Allocator for fresh lock object ids (`threading.Lock()`). -/
  nextId : Nat
  /-- `holder.get? l` = current owner (a thread index) of lock object `l`. -/
  holder : List (Option Nat)
  /-- The file is present at the watch path. -/
  fileAt : Bool
  /-- Number of engine invocations performed for the path. -/
  engineCalls : Nat
  threads : List Thr
deriving DecidableEq, Repr

def setThread (s : CState) (i : Nat) (t : Thr) : CState :=
  { s with threads := s.threads.set i t }

/-- One atomic step of thread `i`; `none` when the thread is blocked,
finished, or does not exist. -/
def threadStep (i : Nat) (s : CState) : Option CState :=
  match s.threads.get? i with
  | none => none
  | some t =>
    match t.pc with
    | 0 =>
      -- lock = self.file_locks.setdefault(file_path, threading.Lock())
      (match s.table with
      | some l => some (setThread s i ⟨1, some l⟩)
      | none => some { setThread s i ⟨1, some s.nextId⟩ with
          table := some s.nextId, nextId := s.nextId + 1, holder := s.holder ++ [none] })
    | 1 =>
      -- with lock: (acquire; blocks while held)
      (match t.lk with
      | some l =>
        (match s.holder.get? l with
        | some none => some { setThread s i ⟨2, t.lk⟩ with holder := s.holder.set l (some i) }
        | _ => none)
      | none => none)
    | 2 =>
      -- if not file_path.exists():
      some (setThread s i ⟨if s.fileAt then 4 else 3, t.lk⟩)
    | 3 =>
      -- if file_path in self.file_locks: del self.file_locks[file_path]; return
      some { setThread s i ⟨7, t.lk⟩ with table := none }
    | 4 =>
      -- transcription_text = self.transcription_service.transcribe(file_path)
      some { setThread s i ⟨5, t.lk⟩ with engineCalls := s.engineCalls + 1 }
    | 5 =>
      -- write the text file and rename (or _move_to_error): the file
      -- leaves the watch path either way
      some { setThread s i ⟨6, t.lk⟩ with fileAt := false }
    | 6 =>
      -- finally: if file_path in self.file_locks: del self.file_locks[file_path]
      some { setThread s i ⟨7, t.lk⟩ with table := none }
    | 7 =>
      -- with-exit: lock.release()
      (match t.lk with
      | some l => some { setThread s i ⟨8, t.lk⟩ with holder := s.holder.set l none }
      | none => none)
    | _ => none

/-- Run a schedule (a list of thread indices); `none` if any scheduled
thread cannot step. -/
def runSched (s : CState) : List Nat → Option CState
  | [] => some s
  | i :: rest =>
    match threadStep i s with
    | some s' => runSched s' rest
    | none => none

/-- Initial state: the file present in the watch root, empty lock
table, `k` queued invocations for the same path. -/
def initThreads (k : Nat) : CState :=
  { table := none, nextId := 0, holder := [], fileAt := true, engineCalls := 0,
    threads := List.replicate k ⟨0, none⟩ }

/-- Thread `i` is inside the `with lock:` critical section. -/
def inCriticalSection (s : CState) (i : Nat) : Bool :=
  match s.threads.get? i with
  | some t => decide (2 ≤ t.pc) && decide (t.pc ≤ 6)
  | none => false

/-- The lock object thread `i` obtained from the table for the path. -/
def lockOf (s : CState) (i : Nat) : Option Nat :=
  match s.threads.get? i with
  | some t => t.lk
  | none => none

/-- The schedule refuting C1's lock invariant: threads 0 and 1 both
run `setdefault` (both receive lock object 0); thread 0 acquires it,
passes the exists check, transcribes, moves the file, deletes the
lock-table entry in its `finally`, and releases; thread 1 then
acquires the same lock object 0 and enters the critical section;
thread 2 now runs `setdefault` on the emptied table, creating a fresh
lock object 1, and acquires it at once.  Thread 0 is finished before
thread 2 takes its first step, so at most two invocations are ever
mid-execution — the schedule respects the transcription pool's two
workers. -/
def raceSchedule : List Nat := [0, 1, 0, 0, 0, 0, 0, 0, 1, 2, 2]

/-- Checks, on the final state of a run: threads 1 and 2 are both
inside the critical section for the path, holding two distinct lock
objects both obtained by create-if-absent on the lock table, while the
engine has still been called only once. -/
def twoThreadsInCriticalSection (o : Option CState) : Bool :=
  match o with
  | some s =>
    inCriticalSection s 1 && inCriticalSection s 2 &&
      (lockOf s 1).isSome && (lockOf s 2).isSome &&
      decide (lockOf s 1 ≠ lockOf s 2) &&
      decide (s.holder = [some 1, some 2]) &&
      decide (s.engineCalls = 1)
  | none => false

/-- C1 fails on the code: after `raceSchedule` (three dispatches of the
same path, at most two concurrently mid-execution), two threads are
simultaneously inside the transcription critical section for the path,
holding two distinct lock objects for it — because the `finally` (and
the missing-file branch) delete the lock-table entry while another
thread may still hold or await the old lock object, after which
`setdefault` mints a second lock for the same path.  The engine-call
count in the final state is still 1. -/
theorem transcribe_and_organize_lock_race :
    twoThreadsInCriticalSection (runSched (initThreads 3) raceSchedule) = true := by
  decide

end Transcriber
